import Mathlib

/-!
Shallow embedding of the RisWidget statistics kernel
(`src/ris_widget/histogram/_histogram_src.c`) and of the histogram-length
validation performed by the pybind dispatch layer
(`src/ris_widget/ndimage_statistics/_ndimage_statistics_module.cpp`).

Modelling conventions:
* An image is a total function `px : Nat → Nat → Nat` (or `→ ℚ` for the
  float kernels) together with `rows`/`cols`; the C code walks the buffer
  through byte strides, visiting exactly the samples `px i j` for
  `i < rows`, `j < cols` in row-major order, which is what `allSamples`
  produces.
* A span mask is the pair of functions `starts ends : Nat → Nat`; row `i`
  contributes the samples at columns `starts i, starts i + 1, …, ends i - 1`
  (the C loops require `starts i ≤ ends i`; the embedding truncates the
  span to empty otherwise).
* A histogram buffer is a counter function `Nat → Nat`.  The C buffers hold
  `uint32_t` counters, which cannot wrap because a `uint16_t × uint16_t`
  image has at most `65535 * 65535 < 2^32` samples.
* The ranged kernels' `float bin_factor` intermediate appears in two
  forms.  The kernel embeddings below use the exact-arithmetic
  idealization `⌊n_bins * (v - hist_min) / (hist_max - hist_min)⌋` — the
  value the specification ascribes to the C expression
  `(uint16_t)(bin_factor * (val - hist_min))`.  Separately, `fl32n` and
  the index functions `rangedIdx32_u16` / `rangedIdx32_float` model the
  actual IEEE-754 binary32 round-to-nearest-even arithmetic of that
  expression; the two demonstrably disagree on some inputs (the code can
  even produce an index equal to `n_bins`, one past the buffer), which the
  divergence theorems at the end of the file exhibit.
-/

namespace RisWidget

/-- Row-major list of every sample of the full `rows × cols` rectangle,
exactly the visit order of the unmasked C loops
(`for row_start …  for pixel …` in `_histogram_src.c`). -/
def allSamples {α : Type} (px : Nat → Nat → α) (rows cols : Nat) : List α :=
  (List.range rows).flatMap fun i => (List.range cols).map fun j => px i j

/-- Row-major list of the samples visited by the masked C loops: row `i`
runs over columns `[starts i, ends i)`.  (`// ends are exclusive bounds`.) -/
def maskedSamples {α : Type} (px : Nat → Nat → α) (rows : Nat)
    (starts ends : Nat → Nat) : List α :=
  (List.range rows).flatMap fun i =>
    (List.range (ends i - starts i)).map fun k => px i (starts i + k)

/-- `histogram[i]++` on a counter function. -/
def bump (h : Nat → Nat) (i : Nat) : Nat → Nat :=
  Function.update h i (h i + 1)

/-- Sum of the first `n` bins of a histogram buffer. -/
def binSum (h : Nat → Nat) (n : Nat) : Nat :=
  ∑ k ∈ Finset.range n, h k

/-- The per-sample min/max update shared by every kernel loop:
`if (val < working_min) working_min = val; else if (val > working_max)
working_max = val;`.  `lt` is the element comparison (for the integer
kernels `fun a b => decide (a < b)`; keeping it abstract also covers the
IEEE `float` comparison of `minmax_float`). -/
def mmStep {α : Type} (lt : α → α → Bool) (m : α × α) (v : α) : α × α :=
  if lt v m.1 then (v, m.2)
  else if lt m.2 v then (m.1, v)
  else m

/-- The variant of the update that tests the max branch unconditionally
(no `else`); used to state that the source form misses no max update. -/
def mmBoth (m : Nat × Nat) (v : Nat) : Nat × Nat :=
  (if v < m.1 then v else m.1, if m.2 < v then v else m.2)

/-- State of a histogram-plus-min/max kernel loop: the counter buffer and
the working min / working max registers. -/
structure HSt where
  hist : Nat → Nat
  mn : Nat
  mx : Nat

/-- One loop iteration of a histogram kernel: apply the histogram update
`upd` to the buffer, then the `if / else if` min/max update. -/
def combStep (upd : (Nat → Nat) → Nat → (Nat → Nat)) (s : HSt) (v : Nat) : HSt :=
  let p := mmStep (fun a b => decide (a < b)) (s.mn, s.mx) v
  { hist := upd s.hist v, mn := p.1, mx := p.2 }

/-- Histogram update of the fixed-range uint16 kernels:
`histogram[val >> shift]++`. -/
def fixedUpd (shift : Nat) (h : Nat → Nat) (v : Nat) : Nat → Nat :=
  bump h (v >>> shift)

/-- Histogram update of `ranged_hist_uint16` / `masked_ranged_hist_uint16`:
`if (val >= hist_min && val < hist_max)
   histogram[(uint16_t)(bin_factor * (val - hist_min))]++;
 else if (val == hist_max) (*last_bin)++;`
with `bin_factor = (float) n_bins / (hist_max - hist_min)` idealized as
exact arithmetic (the spec's reading of the expression).  The actual
single-precision index is modelled by `rangedIdx32_u16`; it can land one
bin away from this exact floor (e.g. n_bins 65533, range (0, 65535),
val 32768).  The `v = hist_max` branch and the min/max registers do not
involve the float computation. -/
def rangedUpd (hist_min hist_max n_bins : Nat) (h : Nat → Nat) (v : Nat) :
    Nat → Nat :=
  if hist_min ≤ v ∧ v < hist_max then
    bump h (n_bins * (v - hist_min) / (hist_max - hist_min))
  else if v = hist_max then bump h (n_bins - 1)
  else h

/-- Histogram update of `ranged_hist_uint8` / `masked_ranged_hist_uint8`:
`if (val >= hist_min && val <= hist_max) histogram[val - hist_min]++;`
(direct offset indexing; the buffer has `hist_max - hist_min + 1` bins). -/
def ranged8Upd (hist_min hist_max : Nat) (h : Nat → Nat) (v : Nat) :
    Nat → Nat :=
  if hist_min ≤ v ∧ v ≤ hist_max then bump h (v - hist_min) else h

/-- Histogram update of `ranged_hist_float` / `masked_ranged_hist_float`,
float samples and bounds modelled as rationals and the float arithmetic of
`if (val >= hist_min && val < hist_max)
   histogram[(uint16_t)(bin_factor * (val - hist_min))]++;
 else if (val == hist_max) (*last_bin)++;`
idealized as exact arithmetic.  The actual single-precision index is
modelled by `rangedIdx32_float`; unlike this idealization it can reach
`n_bins` itself, one past the caller's buffer (see the divergence theorems
at the end of the file). -/
def rangedUpdQ (hist_min hist_max : ℚ) (n_bins : Nat) (h : Nat → Nat) (v : ℚ) :
    Nat → Nat :=
  if hist_min ≤ v ∧ v < hist_max then
    bump h ⌊(n_bins : ℚ) / (hist_max - hist_min) * (v - hist_min)⌋₊
  else if v = hist_max then bump h (n_bins - 1)
  else h

/-- `hist_uint8` (`_histogram_src.c` lines 6-21): seeds working min/max from
the sample at `(0, 0)`, then for every sample does `histogram[val]++` and
the strict min/max update.  Returns the final buffer and `*min`, `*max`. -/
def hist_uint8 (px : Nat → Nat → Nat) (rows cols : Nat) (hist0 : Nat → Nat) :
    HSt :=
  (allSamples px rows cols).foldl (combStep fun h v => bump h v)
    ⟨hist0, px 0 0, px 0 0⟩

/-- `ranged_hist_uint8` (lines 23-38). -/
def ranged_hist_uint8 (px : Nat → Nat → Nat) (rows cols : Nat)
    (hist0 : Nat → Nat) (hist_min hist_max : Nat) : HSt :=
  (allSamples px rows cols).foldl (combStep (ranged8Upd hist_min hist_max))
    ⟨hist0, px 0 0, px 0 0⟩

/-- `masked_hist_uint8` (lines 40-56): seeds working min/max from the sample
at `(0, starts 0)` and scans each row `i` over `[starts i, ends i)`. -/
def masked_hist_uint8 (px : Nat → Nat → Nat) (rows : Nat)
    (starts ends : Nat → Nat) (hist0 : Nat → Nat) : HSt :=
  (maskedSamples px rows starts ends).foldl (combStep fun h v => bump h v)
    ⟨hist0, px 0 (starts 0), px 0 (starts 0)⟩

/-- `hist_uint16` (lines 76-91): `histogram[val >> shift]++` plus min/max. -/
def hist_uint16 (px : Nat → Nat → Nat) (rows cols : Nat) (hist0 : Nat → Nat)
    (shift : Nat) : HSt :=
  (allSamples px rows cols).foldl (combStep (fixedUpd shift))
    ⟨hist0, px 0 0, px 0 0⟩

/-- `ranged_hist_uint16` (lines 93-112). -/
def ranged_hist_uint16 (px : Nat → Nat → Nat) (rows cols : Nat)
    (hist0 : Nat → Nat) (n_bins hist_min hist_max : Nat) : HSt :=
  (allSamples px rows cols).foldl
    (combStep (rangedUpd hist_min hist_max n_bins)) ⟨hist0, px 0 0, px 0 0⟩

/-- `masked_hist_uint16` (lines 114-130). -/
def masked_hist_uint16 (px : Nat → Nat → Nat) (rows : Nat)
    (starts ends : Nat → Nat) (hist0 : Nat → Nat) (shift : Nat) : HSt :=
  (maskedSamples px rows starts ends).foldl (combStep (fixedUpd shift))
    ⟨hist0, px 0 (starts 0), px 0 (starts 0)⟩

/-- `masked_ranged_hist_uint16` (lines 132-153). -/
def masked_ranged_hist_uint16 (px : Nat → Nat → Nat) (rows : Nat)
    (starts ends : Nat → Nat) (hist0 : Nat → Nat)
    (n_bins hist_min hist_max : Nat) : HSt :=
  (maskedSamples px rows starts ends).foldl
    (combStep (rangedUpd hist_min hist_max n_bins))
    ⟨hist0, px 0 (starts 0), px 0 (starts 0)⟩

/-- `minmax_float` (lines 155-169): pure min/max scan; the element type and
its comparison are abstract, so the statement covers the IEEE behavior of
`<` / `>` on `float` as well as any ordered integer type. -/
def minmax_float {α : Type} (lt : α → α → Bool) (px : Nat → Nat → α)
    (rows cols : Nat) : α × α :=
  (allSamples px rows cols).foldl (mmStep lt) (px 0 0, px 0 0)

/-- `masked_minmax_float` (lines 171-186): seed from `(0, starts 0)`. -/
def masked_minmax_float {α : Type} (lt : α → α → Bool) (px : Nat → Nat → α)
    (rows : Nat) (starts ends : Nat → Nat) : α × α :=
  (maskedSamples px rows starts ends).foldl (mmStep lt)
    (px 0 (starts 0), px 0 (starts 0))

/-- `ranged_hist_float` (lines 188-201): histogram only, no min/max output. -/
def ranged_hist_float (px : Nat → Nat → ℚ) (rows cols : Nat)
    (hist0 : Nat → Nat) (n_bins : Nat) (hist_min hist_max : ℚ) : Nat → Nat :=
  (allSamples px rows cols).foldl (rangedUpdQ hist_min hist_max n_bins) hist0

/-- `masked_ranged_hist_float` (lines 203-217). -/
def masked_ranged_hist_float (px : Nat → Nat → ℚ) (rows : Nat)
    (starts ends : Nat → Nat) (hist0 : Nat → Nat) (n_bins : Nat)
    (hist_min hist_max : ℚ) : Nat → Nat :=
  (maskedSamples px rows starts ends).foldl
    (rangedUpdQ hist_min hist_max n_bins) hist0

/-- Modelled from the spec: `bin_count<std::uint8_t>()` from the missing
header `_ndimage_statistics.h`; §4.1(3): `bin_count = 2^(bitwidth - shift)`
with shift 0 for 8-bit data, so 2^8 = 256 bins. -/
def bin_count_uint8 : Nat := 2 ^ 8

/-- Modelled from the spec: `bin_count<std::uint16_t>()` from the missing
header `_ndimage_statistics.h`; §8: 16-bit data uses shift 4, so
`bin_count = 2^(16 - 4) = 4096` bins.  (For the claim only the fact that it
differs from the uint8 bin count matters.) -/
def bin_count_uint16 : Nat := 2 ^ (16 - 4)

/-- Histogram-length validation performed by `py_hist_min_max`
(`_ndimage_statistics_module.cpp` lines 494-509) for a uint16 image with
`is_twelve_bit = false`: the kernel is invoked iff the histogram buffer
length equals `bin_count<std::uint16_t>()`; otherwise the call throws a
shape error before any sample is read. -/
def py_hist_min_max_u16_ok (histLen : Nat) : Bool :=
  histLen == bin_count_uint16

/-- Histogram-length validation performed by `py_masked_hist_min_max`
(`_ndimage_statistics_module.cpp` lines 612-630) for a uint16 image with
`is_twelve_bit = false`: line 614 compares the histogram length against
`bin_count<std::uint8_t>()` (while its own error message at line 617 prints
`bin_count<std::uint16_t>()`). -/
def py_masked_hist_min_max_u16_ok (histLen : Nat) : Bool :=
  histLen == bin_count_uint8

/-- Fuel-bounded binary digit count: `bitlenAux fuel m` is the number of
binary digits of `m` (0 for `m = 0`), correct whenever `m < 2 ^ fuel`. -/
def bitlenAux : Nat → Nat → Nat
  | 0, _ => 0
  | fuel + 1, m => if m = 0 then 0 else bitlenAux fuel (m / 2) + 1

/-- Number of binary digits; every quantity arising in this file is far
below `2 ^ 128`. -/
def bitlen (n : Nat) : Nat :=
  bitlenAux 128 n

/-- `⌊log2 (a / b)⌋` for positive naturals `a`, `b`. -/
def floorLog2 (a b : Nat) : ℤ :=
  let d : ℤ := (bitlen a : ℤ) - (bitlen b : ℤ)
  if 0 ≤ d then (if b * 2 ^ d.toNat ≤ a then d else d - 1)
  else (if b ≤ a * 2 ^ (-d).toNat then d else d - 1)

/-- Round the rational `a / b` to the nearest integer, ties to even — the
IEEE-754 default rounding. -/
def rneNat (a b : Nat) : Nat :=
  let q := a / b
  let r := a % b
  if 2 * r < b then q
  else if b < 2 * r then q + 1
  else if q % 2 = 0 then q else q + 1

/-- IEEE-754 binary32 rounding (round to nearest, ties to even) of the
positive rational `a / b`, as a significand/exponent pair `(n, e)` of value
`n * 2 ^ e` with `2^23 ≤ n ≤ 2^24`.  Faithful for values in the binary32
normal range; every value arising at the inputs evaluated below is normal,
so no overflow/underflow/subnormal handling is needed. -/
def fl32n (a b : Nat) : Nat × ℤ :=
  let e : ℤ := floorLog2 a b - 23
  if 0 ≤ e then (rneNat a (b * 2 ^ e.toNat), e)
  else (rneNat (a * 2 ^ (-e).toNat) b, e)

/-- `⌊n * 2 ^ e⌋`: what the C cast `(uint16_t)` computes on a nonnegative
binary32 value `(n, e)` (truncation toward zero; no wraparound at the
evaluated magnitudes). -/
def floorVal : Nat × ℤ → Nat
  | (n, e) => if 0 ≤ e then n * 2 ^ e.toNat else n / 2 ^ (-e).toNat

/-- The exact rational `(p, q)` equal to a binary32 value `(n, e)` times
the integer `d` — the C product `bin_factor * (val - hist_min)` before its
one rounding (`val - hist_min` is integer arithmetic there, exact in
`float` below `2^24`). -/
def mulExact (ne : Nat × ℤ) (d : Nat) : Nat × Nat :=
  match ne with
  | (n, e) =>
    if 0 ≤ e then (n * d * 2 ^ e.toNat, 1) else (n * d, 2 ^ (-e).toNat)

/-- The exact rational `(p, q)` equal to the product of two binary32
values, before its one rounding. -/
def mulF (x y : Nat × ℤ) : Nat × Nat :=
  match x, y with
  | (n1, e1), (n2, e2) =>
    if 0 ≤ e1 + e2 then (n1 * n2 * 2 ^ (e1 + e2).toNat, 1)
    else (n1 * n2, 2 ^ (-(e1 + e2)).toNat)

/-- The exact rational `(p, q)` equal to the integer `a` divided by a
binary32 value — the C quotient `(float) n_bins / (hist_max - hist_min)`
of the float kernels before its one rounding. -/
def divExact (a : Nat) (y : Nat × ℤ) : Nat × Nat :=
  match y with
  | (n, e) => if 0 ≤ e then (a, n * 2 ^ e.toNat) else (a * 2 ^ (-e).toNat, n)

/-- Binary32-faithful bin index of `ranged_hist_uint16` /
`masked_ranged_hist_uint16` (`_histogram_src.c` lines 98/103 and 139/144):
`bin_factor = (float) n_bins / (hist_max - hist_min)` (integer
subtraction, one float-division rounding), then
`(uint16_t)(bin_factor * (val - hist_min))` (integer subtraction, exact
float conversion below `2^24`, one float-multiplication rounding,
truncation toward zero). -/
def rangedIdx32_u16 (n_bins hist_min hist_max v : Nat) : Nat :=
  let bf := fl32n n_bins (hist_max - hist_min)
  let p := mulExact bf (v - hist_min)
  floorVal (fl32n p.1 p.2)

/-- Binary32-faithful bin index of `ranged_hist_float` /
`masked_ranged_hist_float` (lines 191/197 and 207/213).  The exact value of
the float subtraction `hist_max - hist_min` is supplied as
`dmaxN / dmaxD` and that of `val - hist_min` as `dvalN / dvalD` (both
nonnegative at the evaluated inputs); each C float operation — the two
subtractions, the division and the multiplication — rounds once. -/
def rangedIdx32_float (n_bins dmaxN dmaxD dvalN dvalD : Nat) : Nat :=
  let rng := fl32n dmaxN dmaxD
  let q := divExact n_bins rng
  let bf := fl32n q.1 q.2
  let dv := fl32n dvalN dvalD
  let p := mulF bf dv
  floorVal (fl32n p.1 p.2)

theorem length_allSamples {α : Type} (px : Nat → Nat → α) (rows cols : Nat) :
    (allSamples px rows cols).length = rows * cols := by
  simp [allSamples, List.length_flatMap, List.map_map, Function.comp_def,
    List.map_const', List.sum_replicate, smul_eq_mul, Nat.mul_comm]

theorem sum_map_range (f : Nat → Nat) : ∀ n : Nat,
    ((List.range n).map f).sum = ∑ i ∈ Finset.range n, f i
  | 0 => by simp
  | n + 1 => by
    rw [List.range_succ, List.map_append, List.sum_append,
      Finset.sum_range_succ, sum_map_range f n]
    simp

theorem length_maskedSamples {α : Type} (px : Nat → Nat → α) (rows : Nat)
    (starts ends : Nat → Nat) :
    (maskedSamples px rows starts ends).length =
      ∑ i ∈ Finset.range rows, (ends i - starts i) := by
  simp only [maskedSamples, List.length_flatMap, List.map_map,
    Function.comp_def, List.length_map, List.length_range]
  exact sum_map_range _ rows

theorem mem_allSamples {α : Type} {px : Nat → Nat → α} {rows cols : Nat}
    {v : α} :
    v ∈ allSamples px rows cols ↔
      ∃ i j, i < rows ∧ j < cols ∧ v = px i j := by
  simp only [allSamples, List.mem_flatMap, List.mem_map, List.mem_range]
  constructor
  · rintro ⟨i, hi, j, hj, rfl⟩
    exact ⟨i, j, hi, hj, rfl⟩
  · rintro ⟨i, j, hi, hj, rfl⟩
    exact ⟨i, hi, j, hj, rfl⟩

theorem mem_maskedSamples {α : Type} {px : Nat → Nat → α} {rows : Nat}
    {starts ends : Nat → Nat} {v : α} :
    v ∈ maskedSamples px rows starts ends ↔
      ∃ i k, i < rows ∧ k < ends i - starts i ∧ v = px i (starts i + k) := by
  simp only [maskedSamples, List.mem_flatMap, List.mem_map, List.mem_range]
  constructor
  · rintro ⟨i, hi, k, hk, rfl⟩
    exact ⟨i, k, hi, hk, rfl⟩
  · rintro ⟨i, k, hi, hk, rfl⟩
    exact ⟨i, hi, k, hk, rfl⟩

theorem mmStep_cases {α : Type} [LinearOrder α] (m : α × α) (v : α) :
    mmStep (fun a b => decide (a < b)) m v =
      if v < m.1 then (v, m.2) else if m.2 < v then (m.1, v) else m := by
  simp [mmStep]

/-- Properties of one `if / else if` min/max update step, assuming the
working pair is ordered. -/
theorem mmStep_grow {α : Type} [LinearOrder α] (m : α × α) (v : α)
    (h : m.1 ≤ m.2) :
    (mmStep (fun a b => decide (a < b)) m v).1 ≤
        (mmStep (fun a b => decide (a < b)) m v).2 ∧
      (mmStep (fun a b => decide (a < b)) m v).1 ≤ m.1 ∧
      m.2 ≤ (mmStep (fun a b => decide (a < b)) m v).2 ∧
      (mmStep (fun a b => decide (a < b)) m v).1 ≤ v ∧
      v ≤ (mmStep (fun a b => decide (a < b)) m v).2 ∧
      ((mmStep (fun a b => decide (a < b)) m v).1 = m.1 ∨
        (mmStep (fun a b => decide (a < b)) m v).1 = v) ∧
      ((mmStep (fun a b => decide (a < b)) m v).2 = m.2 ∨
        (mmStep (fun a b => decide (a < b)) m v).2 = v) := by
  rw [mmStep_cases]
  by_cases h1 : v < m.1
  · rw [if_pos h1]
    exact ⟨le_trans h1.le h, h1.le, le_refl _, le_refl _, le_trans h1.le h,
      Or.inr rfl, Or.inl rfl⟩
  · rw [if_neg h1]
    by_cases h2 : m.2 < v
    · rw [if_pos h2]
      exact ⟨le_trans h h2.le, le_refl _, h2.le, not_lt.mp h1, le_refl _,
        Or.inl rfl, Or.inr rfl⟩
    · rw [if_neg h2]
      exact ⟨h, le_refl _, le_refl _, not_lt.mp h1, not_lt.mp h2,
        Or.inl rfl, Or.inl rfl⟩

/-- A sample equal to the working min or working max updates nothing. -/
theorem mmStep_tie {α : Type} [LinearOrder α] (m : α × α) (v : α)
    (h : m.1 ≤ m.2) (hv : v = m.1 ∨ v = m.2) :
    mmStep (fun a b => decide (a < b)) m v = m := by
  rw [mmStep_cases]
  rcases hv with rfl | rfl
  · rw [if_neg (lt_irrefl _), if_neg (not_lt.mpr h)]
  · rw [if_neg (not_lt.mpr h), if_neg (lt_irrefl _)]

/-- Full specification of the min/max scan fold: the result stays ordered,
only widens, bounds every scanned value, and each bound is either the seed
or some scanned value. -/
theorem mm_foldl_spec {α : Type} [LinearOrder α] (vs : List α) (m : α × α)
    (h : m.1 ≤ m.2) :
    (vs.foldl (mmStep fun a b => decide (a < b)) m).1 ≤
        (vs.foldl (mmStep fun a b => decide (a < b)) m).2 ∧
      (vs.foldl (mmStep fun a b => decide (a < b)) m).1 ≤ m.1 ∧
      m.2 ≤ (vs.foldl (mmStep fun a b => decide (a < b)) m).2 ∧
      (∀ v ∈ vs, (vs.foldl (mmStep fun a b => decide (a < b)) m).1 ≤ v ∧
        v ≤ (vs.foldl (mmStep fun a b => decide (a < b)) m).2) ∧
      ((vs.foldl (mmStep fun a b => decide (a < b)) m).1 = m.1 ∨
        (vs.foldl (mmStep fun a b => decide (a < b)) m).1 ∈ vs) ∧
      ((vs.foldl (mmStep fun a b => decide (a < b)) m).2 = m.2 ∨
        (vs.foldl (mmStep fun a b => decide (a < b)) m).2 ∈ vs) := by
  induction vs generalizing m with
  | nil =>
    exact ⟨h, le_refl _, le_refl _, (by intro v hv; cases hv), Or.inl rfl,
      Or.inl rfl⟩
  | cons v vs ih =>
    obtain ⟨s1, s2, s3, s4, s5, s6, s7⟩ := mmStep_grow m v h
    obtain ⟨r1, r2, r3, r4, r5, r6⟩ :=
      ih (mmStep (fun a b => decide (a < b)) m v) s1
    rw [List.foldl_cons]
    refine ⟨r1, le_trans r2 s2, le_trans s3 r3, ?_, ?_, ?_⟩
    · intro w hw
      rcases List.mem_cons.mp hw with rfl | hw
      · exact ⟨le_trans r2 s4, le_trans s5 r3⟩
      · exact r4 w hw
    · rcases r5 with he | hm
      · rcases s6 with h6 | h6
        · exact Or.inl (he.trans h6)
        · exact Or.inr (by rw [he, h6]; exact List.mem_cons_self _ _)
      · exact Or.inr (List.mem_cons_of_mem _ hm)
    · rcases r6 with he | hm
      · rcases s7 with h7 | h7
        · exact Or.inl (he.trans h7)
        · exact Or.inr (by rw [he, h7]; exact List.mem_cons_self _ _)
      · exact Or.inr (List.mem_cons_of_mem _ hm)

theorem foldl_combStep_hist (upd : (Nat → Nat) → Nat → (Nat → Nat))
    (vs : List Nat) (s : HSt) :
    (vs.foldl (combStep upd) s).hist = vs.foldl upd s.hist := by
  induction vs generalizing s with
  | nil => rfl
  | cons v vs ih =>
    rw [List.foldl_cons, List.foldl_cons, ih]
    rfl

theorem foldl_combStep_mm (upd : (Nat → Nat) → Nat → (Nat → Nat))
    (vs : List Nat) (s : HSt) :
    ((vs.foldl (combStep upd) s).mn, (vs.foldl (combStep upd) s).mx) =
      vs.foldl (mmStep fun a b => decide (a < b)) (s.mn, s.mx) := by
  induction vs generalizing s with
  | nil => rfl
  | cons v vs ih =>
    rw [List.foldl_cons, List.foldl_cons, ih]
    rfl

theorem foldl_combStep_mn (upd : (Nat → Nat) → Nat → (Nat → Nat))
    (vs : List Nat) (s : HSt) :
    (vs.foldl (combStep upd) s).mn =
      (vs.foldl (mmStep fun a b => decide (a < b)) (s.mn, s.mx)).1 :=
  congrArg Prod.fst (foldl_combStep_mm upd vs s)

theorem foldl_combStep_mx (upd : (Nat → Nat) → Nat → (Nat → Nat))
    (vs : List Nat) (s : HSt) :
    (vs.foldl (combStep upd) s).mx =
      (vs.foldl (mmStep fun a b => decide (a < b)) (s.mn, s.mx)).2 :=
  congrArg Prod.snd (foldl_combStep_mm upd vs s)

theorem bump_apply_ne (h : Nat → Nat) (i k : Nat) (hk : k ≠ i) :
    bump h i k = h k :=
  Function.update_noteq hk _ _

theorem binSum_bump (h : Nat → Nat) {i n : Nat} (hi : i < n) :
    binSum (bump h i) n = binSum h n + 1 := by
  unfold binSum bump
  have hmem : i ∈ Finset.range n := Finset.mem_range.mpr hi
  rw [Finset.sum_update_of_mem hmem, ← Finset.add_sum_erase _ h hmem]
  simp only [Finset.erase_eq]
  omega

theorem binSum_zero (n : Nat) : binSum (fun _ => 0) n = 0 := by
  simp [binSum]

theorem binSum_foldl_incr {α : Type} (upd : (Nat → Nat) → α → (Nat → Nat))
    (n : Nat) (vs : List α) (h0 : Nat → Nat)
    (hupd : ∀ h : Nat → Nat, ∀ v ∈ vs, binSum (upd h v) n = binSum h n + 1) :
    binSum (vs.foldl upd h0) n = binSum h0 n + vs.length := by
  induction vs generalizing h0 with
  | nil => simp
  | cons v vs ih =>
    rw [List.foldl_cons,
      ih _ fun h w hw => hupd h w (List.mem_cons_of_mem _ hw),
      hupd h0 v (List.mem_cons_self _ _), List.length_cons]
    omega

theorem foldl_apply_fix {α : Type} (upd : (Nat → Nat) → α → (Nat → Nat))
    (k : Nat) (vs : List α) (h0 : Nat → Nat)
    (hupd : ∀ h : Nat → Nat, ∀ v ∈ vs, upd h v k = h k) :
    (vs.foldl upd h0) k = h0 k := by
  induction vs generalizing h0 with
  | nil => rfl
  | cons v vs ih =>
    rw [List.foldl_cons, ih _ fun h w hw => hupd h w (List.mem_cons_of_mem _ hw)]
    exact hupd h0 v (List.mem_cons_self _ _)

theorem shiftRight_lt_pow {v w s : Nat} (hv : v < 2 ^ w) :
    v >>> s < 2 ^ (w - s) := by
  rw [Nat.shiftRight_eq_div_pow]
  rcases Nat.le_total s w with hsw | hws
  · rw [Nat.div_lt_iff_lt_mul (pow_pos (by norm_num : (0 : ℕ) < 2) s)]
    calc v < 2 ^ w := hv
      _ = 2 ^ (w - s) * 2 ^ s := by rw [← pow_add, Nat.sub_add_cancel hsw]
  · rw [Nat.div_eq_of_lt
      (lt_of_lt_of_le hv (Nat.pow_le_pow_right (by norm_num) hws))]
    exact pow_pos (by norm_num) _

theorem mmStep_eq_mmBoth (m : Nat × Nat) (v : Nat) (h : m.1 ≤ m.2) :
    mmStep (fun a b => decide (a < b)) m v = mmBoth m v := by
  unfold mmBoth
  rw [mmStep_cases]
  by_cases h1 : v < m.1
  · rw [if_pos h1, if_pos h1, if_neg (show ¬m.2 < v by omega)]
  · rw [if_neg h1, if_neg h1]
    by_cases h2 : m.2 < v
    · rw [if_pos h2, if_pos h2]
    · rw [if_neg h2, if_neg h2]

theorem foldl_mmStep_eq_mmBoth (vs : List Nat) (m : Nat × Nat)
    (h : m.1 ≤ m.2) :
    vs.foldl (mmStep fun a b => decide (a < b)) m = vs.foldl mmBoth m := by
  induction vs generalizing m with
  | nil => rfl
  | cons v vs ih =>
    rw [List.foldl_cons, List.foldl_cons, ← mmStep_eq_mmBoth m v h,
      ih _ (mmStep_grow m v h).1]

/-- C1: for every non-empty 2-D image (`rows ≥ 1`, `cols ≥ 1`) of a
supported element kind, the min/max scan — seeded from the sample at
`(0, 0)` and updated with strict `<` / `>` comparisons — writes min equal to
the true minimum and max equal to the true maximum of all samples ("true"
here means: a lower/upper bound that is itself one of the samples).  Stated
for `minmax_float` over an arbitrary linearly ordered element type (which
covers all integer kinds and NaN-free float data) and for the min/max
outputs of `hist_uint8`; the final conjunct states that a sample tied with
a working bound updates nothing. -/
theorem C1_min_max_correct {α : Type} [LinearOrder α] (px : Nat → Nat → α)
    (pxN : Nat → Nat → Nat) (rows cols : Nat) (hist0 : Nat → Nat)
    (hrows : 1 ≤ rows) (hcols : 1 ≤ cols) :
    ((minmax_float (fun a b => decide (a < b)) px rows cols).1 ∈
        allSamples px rows cols ∧
      (∀ v ∈ allSamples px rows cols,
        (minmax_float (fun a b => decide (a < b)) px rows cols).1 ≤ v)) ∧
    ((minmax_float (fun a b => decide (a < b)) px rows cols).2 ∈
        allSamples px rows cols ∧
      (∀ v ∈ allSamples px rows cols,
        v ≤ (minmax_float (fun a b => decide (a < b)) px rows cols).2)) ∧
    ((hist_uint8 pxN rows cols hist0).mn ∈ allSamples pxN rows cols ∧
      (∀ v ∈ allSamples pxN rows cols,
        (hist_uint8 pxN rows cols hist0).mn ≤ v)) ∧
    ((hist_uint8 pxN rows cols hist0).mx ∈ allSamples pxN rows cols ∧
      (∀ v ∈ allSamples pxN rows cols,
        v ≤ (hist_uint8 pxN rows cols hist0).mx)) ∧
    (∀ (m : α × α) (v : α), m.1 ≤ m.2 → (v = m.1 ∨ v = m.2) →
      mmStep (fun a b => decide (a < b)) m v = m) := by
  have hseed : px 0 0 ∈ allSamples px rows cols :=
    mem_allSamples.mpr ⟨0, 0, hrows, hcols, rfl⟩
  have hseedN : pxN 0 0 ∈ allSamples pxN rows cols :=
    mem_allSamples.mpr ⟨0, 0, hrows, hcols, rfl⟩
  obtain ⟨r1, r2, r3, r4, r5, r6⟩ :=
    mm_foldl_spec (allSamples px rows cols) (px 0 0, px 0 0) (le_refl _)
  obtain ⟨s1, s2, s3, s4, s5, s6⟩ :=
    mm_foldl_spec (allSamples pxN rows cols) (pxN 0 0, pxN 0 0) (le_refl _)
  have hmn : (hist_uint8 pxN rows cols hist0).mn =
      ((allSamples pxN rows cols).foldl (mmStep fun a b => decide (a < b))
        (pxN 0 0, pxN 0 0)).1 :=
    foldl_combStep_mn (fun h v => bump h v) (allSamples pxN rows cols)
      ⟨hist0, pxN 0 0, pxN 0 0⟩
  have hmx : (hist_uint8 pxN rows cols hist0).mx =
      ((allSamples pxN rows cols).foldl (mmStep fun a b => decide (a < b))
        (pxN 0 0, pxN 0 0)).2 :=
    foldl_combStep_mx (fun h v => bump h v) (allSamples pxN rows cols)
      ⟨hist0, pxN 0 0, pxN 0 0⟩
  refine ⟨⟨?_, fun v hv => (r4 v hv).1⟩, ⟨?_, fun v hv => (r4 v hv).2⟩,
    ⟨?_, fun v hv => ?_⟩, ⟨?_, fun v hv => ?_⟩,
    fun m v h hv => mmStep_tie m v h hv⟩
  · rcases r5 with he | hm
    · rw [minmax_float, he]
      exact hseed
    · exact hm
  · rcases r6 with he | hm
    · rw [minmax_float, he]
      exact hseed
    · exact hm
  · rw [hmn]
    rcases s5 with he | hm
    · rw [he]
      exact hseedN
    · exact hm
  · rw [hmn]
    exact (s4 v hv).1
  · rw [hmx]
    rcases s6 with he | hm
    · rw [he]
      exact hseedN
    · exact hm
  · rw [hmx]
    exact (s4 v hv).2

theorem C1_min_max_correct_witness :
    (minmax_float (fun a b : Nat => decide (a < b))
        (fun i j => 10 * i + j) 2 3).1 ∈
      allSamples (fun i j => 10 * i + j) 2 3 :=
  (C1_min_max_correct (fun i j => 10 * i + j) (fun i j => 10 * i + j) 2 3
    (fun _ => 0) (by decide) (by decide)).1.1

/-- C2: on the fixed (natural-range) histogram path, starting from a
caller-zeroed buffer of the required length, the sum of all bin counts
equals the number of active samples: `rows * cols` for the unmasked
kernels, and the sum over rows of the span lengths `ends i - starts i` for
the masked kernels; no sample is dropped. -/
theorem C2_fixed_hist_sum (px8 px16 : Nat → Nat → Nat) (rows cols : Nat)
    (starts ends : Nat → Nat) (shift : Nat)
    (h8 : ∀ i j, px8 i j < 2 ^ 8) (h16 : ∀ i j, px16 i j < 2 ^ 16)
    (hm : ∀ i, i < rows → starts i ≤ ends i) :
    binSum (hist_uint8 px8 rows cols fun _ => 0).hist (2 ^ 8) =
      rows * cols ∧
    binSum (hist_uint16 px16 rows cols (fun _ => 0) shift).hist
        (2 ^ (16 - shift)) = rows * cols ∧
    binSum (masked_hist_uint8 px8 rows starts ends fun _ => 0).hist (2 ^ 8) =
      ∑ i ∈ Finset.range rows, (ends i - starts i) ∧
    binSum (masked_hist_uint16 px16 rows starts ends (fun _ => 0) shift).hist
        (2 ^ (16 - shift)) =
      ∑ i ∈ Finset.range rows, (ends i - starts i) := by
  have b8 : ∀ v ∈ allSamples px8 rows cols, v < 2 ^ 8 := by
    intro v hv
    obtain ⟨i, j, _, _, rfl⟩ := mem_allSamples.mp hv
    exact h8 i j
  have mb8 : ∀ v ∈ maskedSamples px8 rows starts ends, v < 2 ^ 8 := by
    intro v hv
    obtain ⟨i, k, _, _, rfl⟩ := mem_maskedSamples.mp hv
    exact h8 i _
  have b16 : ∀ v ∈ allSamples px16 rows cols, v >>> shift < 2 ^ (16 - shift) := by
    intro v hv
    obtain ⟨i, j, _, _, rfl⟩ := mem_allSamples.mp hv
    exact shiftRight_lt_pow (h16 i j)
  have mb16 : ∀ v ∈ maskedSamples px16 rows starts ends,
      v >>> shift < 2 ^ (16 - shift) := by
    intro v hv
    obtain ⟨i, k, _, _, rfl⟩ := mem_maskedSamples.mp hv
    exact shiftRight_lt_pow (h16 i _)
  refine ⟨?_, ?_, ?_, ?_⟩
  · rw [hist_uint8, foldl_combStep_hist,
      binSum_foldl_incr _ _ _ _
        (fun h v hv => binSum_bump h (b8 v hv)),
      binSum_zero, length_allSamples]
    omega
  · rw [hist_uint16, foldl_combStep_hist,
      binSum_foldl_incr (fixedUpd shift) _ _ _
        (fun h v hv => binSum_bump h (b16 v hv)),
      binSum_zero, length_allSamples]
    omega
  · rw [masked_hist_uint8, foldl_combStep_hist,
      binSum_foldl_incr _ _ _ _
        (fun h v hv => binSum_bump h (mb8 v hv)),
      binSum_zero, length_maskedSamples]
    omega
  · rw [masked_hist_uint16, foldl_combStep_hist,
      binSum_foldl_incr (fixedUpd shift) _ _ _
        (fun h v hv => binSum_bump h (mb16 v hv)),
      binSum_zero, length_maskedSamples]
    omega

theorem C2_fixed_hist_sum_witness :
    binSum (hist_uint8 (fun _ _ => 7) 2 2 fun _ => 0).hist (2 ^ 8) = 2 * 2 :=
  (C2_fixed_hist_sum (fun _ _ => 7) (fun _ _ => 300) 2 2 (fun _ => 0)
    (fun _ => 1) 0 (fun _ _ => by norm_num) (fun _ _ => by norm_num)
    (fun _ _ => Nat.zero_le _)).1

theorem flatMap_congr_of_mem {α β : Type} (l : List α) (f g : α → List β)
    (h : ∀ a ∈ l, f a = g a) : l.flatMap f = l.flatMap g := by
  induction l with
  | nil => rfl
  | cons x xs ih =>
    rw [List.flatMap_cons, List.flatMap_cons, h x (List.mem_cons_self _ _),
      ih fun a ha => h a (List.mem_cons_of_mem _ ha)]

theorem flatMap_eq_nil_of {α β : Type} (l : List α) (f : α → List β)
    (h : ∀ a ∈ l, f a = []) : l.flatMap f = [] := by
  induction l with
  | nil => rfl
  | cons x xs ih =>
    rw [List.flatMap_cons, h x (List.mem_cons_self _ _), List.nil_append,
      ih fun a ha => h a (List.mem_cons_of_mem _ ha)]

/-- A mask whose every row span is the full row `[0, cols)` visits exactly
the samples of the unmasked scan, in the same order. -/
theorem maskedSamples_full {α : Type} (px : Nat → Nat → α) (rows cols : Nat)
    (starts ends : Nat → Nat)
    (hfull : ∀ i, i < rows → starts i = 0 ∧ ends i = cols) :
    maskedSamples px rows starts ends = allSamples px rows cols := by
  unfold maskedSamples allSamples
  apply flatMap_congr_of_mem
  intro i hi
  obtain ⟨h1, h2⟩ := hfull i (List.mem_range.mp hi)
  rw [h1, h2, Nat.sub_zero]
  exact List.map_congr_left fun k _ => by rw [Nat.zero_add]

/-- A mask whose every row span is empty visits no samples. -/
theorem maskedSamples_empty {α : Type} (px : Nat → Nat → α) (rows : Nat)
    (starts ends : Nat → Nat)
    (hempty : ∀ i, i < rows → ends i = starts i) :
    maskedSamples px rows starts ends = [] := by
  unfold maskedSamples
  apply flatMap_eq_nil_of
  intro i hi
  rw [hempty i (List.mem_range.mp hi), Nat.sub_self, List.range_zero,
    List.map_nil]

/-- C7: for every non-empty image, `masked_minmax_float` applied with a mask
whose every row span is the full row `[0, cols)` returns exactly the same
(min, max) pair as the unmasked `minmax_float` on that image.  The element
type and its comparison are abstract, so the equality holds even for float
data containing NaN (both scans run the identical update sequence). -/
theorem C7_masked_full_eq_unmasked {α : Type} (lt : α → α → Bool)
    (px : Nat → Nat → α) (rows cols : Nat) (starts ends : Nat → Nat)
    (hrows : 1 ≤ rows) (hcols : 1 ≤ cols)
    (hfull : ∀ i, i < rows → starts i = 0 ∧ ends i = cols) :
    masked_minmax_float lt px rows starts ends =
      minmax_float lt px rows cols := by
  unfold masked_minmax_float minmax_float
  rw [maskedSamples_full px rows cols starts ends hfull, (hfull 0 hrows).1]

theorem C7_masked_full_eq_unmasked_witness :
    masked_minmax_float (fun a b : Nat => decide (a < b))
        (fun i j => 10 * i + j) 2 (fun _ => 0) (fun _ => 2) =
      minmax_float (fun a b : Nat => decide (a < b))
        (fun i j => 10 * i + j) 2 2 :=
  C7_masked_full_eq_unmasked (fun a b : Nat => decide (a < b))
    (fun i j => 10 * i + j) 2 2 (fun _ => 0) (fun _ => 2) (by decide)
    (by decide) (fun i _ => ⟨rfl, rfl⟩)

/-- C8: every masked kernel seeds its working min and max from the sample at
`(row 0, column starts 0)`; with a mask in which every row span is empty the
scan visits no samples, so the outputs are exactly the seed
`px 0 (starts 0)` for both min and max, and no histogram bin is
incremented (the buffer is returned unchanged).  Stated for
`masked_minmax_float` (abstract element comparison) and `masked_hist_uint8`. -/
theorem C8_empty_span_seed {α : Type} (lt : α → α → Bool)
    (px : Nat → Nat → α) (pxN : Nat → Nat → Nat) (rows : Nat)
    (starts ends : Nat → Nat) (hist0 : Nat → Nat)
    (hempty : ∀ i, i < rows → ends i = starts i) :
    masked_minmax_float lt px rows starts ends =
      (px 0 (starts 0), px 0 (starts 0)) ∧
    (masked_hist_uint8 pxN rows starts ends hist0).hist = hist0 ∧
    (masked_hist_uint8 pxN rows starts ends hist0).mn = pxN 0 (starts 0) ∧
    (masked_hist_uint8 pxN rows starts ends hist0).mx = pxN 0 (starts 0) := by
  refine ⟨?_, ?_, ?_, ?_⟩
  · unfold masked_minmax_float
    rw [maskedSamples_empty px rows starts ends hempty]
    rfl
  · unfold masked_hist_uint8
    rw [maskedSamples_empty pxN rows starts ends hempty]
    rfl
  · unfold masked_hist_uint8
    rw [maskedSamples_empty pxN rows starts ends hempty]
    rfl
  · unfold masked_hist_uint8
    rw [maskedSamples_empty pxN rows starts ends hempty]
    rfl

theorem C8_empty_span_seed_witness :
    masked_minmax_float (fun a b : Nat => decide (a < b))
        (fun i j => 10 * i + j) 2 (fun _ => 1) (fun _ => 1) = (1, 1) :=
  (C8_empty_span_seed (fun a b : Nat => decide (a < b))
    (fun i j => 10 * i + j) (fun i j => 10 * i + j) 2 (fun _ => 1)
    (fun _ => 1) (fun _ => 0) (fun _ _ => rfl)).1

/-- C4 counterexample: the claim states that a sample equal to `hist_max`
is "never in bin 0 … regardless of n_bins".  With `n_bins = 1` the last bin
IS bin 0: running `ranged_hist_uint16` on the 1×1 image `[[5]]` with
`hist_min = 0`, `hist_max = 5`, `n_bins = 1` and a zeroed buffer leaves one
count in bin 0, refuting the claim as stated. -/
theorem C4_counterexample_nbins_one :
    (ranged_hist_uint16 (fun _ _ => 5) 1 1 (fun _ => 0) 1 0 5).hist 0 = 1 := by
  rfl

/-- C4 (amended): a sample exactly equal to `hist_max` is always counted
into bin `n_bins - 1` (the last bin) and never dropped, regardless of
`n_bins`; when `n_bins ≥ 2` that bin is distinct from bin 0.  (The original
"never in bin 0" fails only at `n_bins = 1`, where the last bin is bin 0.)
For the uint8 kernel the last bin is `hist_max - hist_min`, the top of its
implied `hist_max - hist_min + 1`-bin buffer, provided
`hist_min ≤ hist_max`. -/
theorem C4_hist_max_last_bin (n_bins hist_min hist_max : Nat) (h : Nat → Nat)
    (hist_min8 hist_max8 : Nat) (h8 : Nat → Nat) (hnb : 1 ≤ n_bins)
    (h8r : hist_min8 ≤ hist_max8) :
    rangedUpd hist_min hist_max n_bins h hist_max = bump h (n_bins - 1) ∧
    binSum (rangedUpd hist_min hist_max n_bins h hist_max) n_bins =
      binSum h n_bins + 1 ∧
    (2 ≤ n_bins → n_bins - 1 ≠ 0) ∧
    ranged8Upd hist_min8 hist_max8 h8 hist_max8 =
      bump h8 (hist_max8 - hist_min8) ∧
    hist_max8 - hist_min8 = (hist_max8 - hist_min8 + 1) - 1 := by
  have h1 : rangedUpd hist_min hist_max n_bins h hist_max =
      bump h (n_bins - 1) := by
    unfold rangedUpd
    rw [if_neg (by omega), if_pos rfl]
  refine ⟨h1, ?_, fun h2 => by omega, ?_, by omega⟩
  · rw [h1, binSum_bump _ (by omega : n_bins - 1 < n_bins)]
  · unfold ranged8Upd
    rw [if_pos ⟨h8r, le_refl _⟩]

theorem C4_hist_max_last_bin_witness :
    rangedUpd 0 5 3 (fun _ => 0) 5 = bump (fun _ => 0) (3 - 1) :=
  (C4_hist_max_last_bin 3 0 5 (fun _ => 0) 0 7 (fun _ => 0) (by decide)
    (by decide)).1

/-- C5: the claim states that for a uint16 image with `is_twelve_bit`
false, the masked and unmasked `hist_min_max` entry points enforce the same
histogram-length precondition (length = bin count derived for uint16).
The code violates this: `py_hist_min_max` accepts exactly the uint16 bin
count, while `py_masked_hist_min_max` (module line 614) compares against
`bin_count<std::uint8_t>()` — contradicting its own error message, which
names the uint16 bin count.  This theorem evaluates both checks at both bin
counts, exhibiting the divergence. -/
theorem C5_masked_u16_length_check_bug :
    py_hist_min_max_u16_ok bin_count_uint16 = true ∧
    py_masked_hist_min_max_u16_ok bin_count_uint16 = false ∧
    py_masked_hist_min_max_u16_ok bin_count_uint8 = true ∧
    py_hist_min_max_u16_ok bin_count_uint8 = false := by
  decide

/-- C9: on the fixed (natural-range) histogram path every store uses index
`value >>> shift`; for samples below `2^w` this index is below
`2^(w - shift)`, so with a buffer of the derived `bin_count = 2^(w - shift)`
elements no increment ever indexes out of bounds — equivalently, every bin
at index ≥ bin_count is left untouched by `hist_uint16`,
`masked_hist_uint16` and `hist_uint8` (bin_count 2^8, shift 0). -/
theorem C9_fixed_index_in_bounds (w s shift : Nat) (px : Nat → Nat → Nat)
    (px16 px8 : Nat → Nat → Nat) (rows cols : Nat) (starts ends : Nat → Nat)
    (hist0 : Nat → Nat) (hw : ∀ i j, px i j < 2 ^ w)
    (h16 : ∀ i j, px16 i j < 2 ^ 16) (h8 : ∀ i j, px8 i j < 2 ^ 8) :
    (∀ v ∈ allSamples px rows cols, v >>> s < 2 ^ (w - s)) ∧
    (∀ v ∈ maskedSamples px rows starts ends, v >>> s < 2 ^ (w - s)) ∧
    (∀ k, 2 ^ (16 - shift) ≤ k →
      (hist_uint16 px16 rows cols hist0 shift).hist k = hist0 k) ∧
    (∀ k, 2 ^ (16 - shift) ≤ k →
      (masked_hist_uint16 px16 rows starts ends hist0 shift).hist k =
        hist0 k) ∧
    (∀ k, 2 ^ 8 ≤ k → (hist_uint8 px8 rows cols hist0).hist k = hist0 k) := by
  refine ⟨?_, ?_, ?_, ?_, ?_⟩
  · intro v hv
    obtain ⟨i, j, _, _, rfl⟩ := mem_allSamples.mp hv
    exact shiftRight_lt_pow (hw i j)
  · intro v hv
    obtain ⟨i, k, _, _, rfl⟩ := mem_maskedSamples.mp hv
    exact shiftRight_lt_pow (hw i _)
  · intro k hk
    unfold hist_uint16
    rw [foldl_combStep_hist]
    refine foldl_apply_fix _ _ _ _ fun h v hv => ?_
    obtain ⟨i, j, _, _, rfl⟩ := mem_allSamples.mp hv
    exact bump_apply_ne _ _ _
      (Nat.ne_of_gt (lt_of_lt_of_le (shiftRight_lt_pow (h16 i j)) hk))
  · intro k hk
    unfold masked_hist_uint16
    rw [foldl_combStep_hist]
    refine foldl_apply_fix _ _ _ _ fun h v hv => ?_
    obtain ⟨i, c, _, _, rfl⟩ := mem_maskedSamples.mp hv
    exact bump_apply_ne _ _ _
      (Nat.ne_of_gt (lt_of_lt_of_le (shiftRight_lt_pow (h16 i _)) hk))
  · intro k hk
    unfold hist_uint8
    rw [foldl_combStep_hist]
    refine foldl_apply_fix _ _ _ _ fun h v hv => ?_
    obtain ⟨i, j, _, _, rfl⟩ := mem_allSamples.mp hv
    exact bump_apply_ne _ _ _
      (Nat.ne_of_gt (lt_of_lt_of_le (h8 i j) hk))

theorem C9_fixed_index_in_bounds_witness :
    (hist_uint8 (fun _ _ => 7) 1 1 fun _ => 0).hist 300 = 0 :=
  (C9_fixed_index_in_bounds 8 0 4 (fun _ _ => 7) (fun _ _ => 300)
    (fun _ _ => 7) 1 1 (fun _ => 0) (fun _ => 1) (fun _ => 0)
    (fun _ _ => by norm_num) (fun _ _ => by norm_num)
    (fun _ _ => by norm_num)).2.2.2.2 300 (by norm_num)

/-- C10: in every integer-kind scan loop the invariant
`working_min ≤ working_max` holds after every per-sample update (both are
seeded equal, the min only decreases, the max only increases); the
`else if` form of the max comparison equals the unconditional two-test
update (`mmBoth`), so it misses no max update; consequently `hist_uint8`,
`hist_uint16` and `masked_ranged_hist_uint16` write outputs with
min ≤ max. -/
theorem C10_minmax_invariant (px8 px16 pxm : Nat → Nat → Nat)
    (rows cols : Nat) (starts ends : Nat → Nat) (hist0 : Nat → Nat)
    (shift n_bins hist_min hist_max : Nat) :
    (∀ (m : Nat × Nat) (v : Nat), m.1 ≤ m.2 →
      ((mmStep (fun a b => decide (a < b)) m v).1 ≤
          (mmStep (fun a b => decide (a < b)) m v).2 ∧
        (mmStep (fun a b => decide (a < b)) m v).1 ≤ m.1 ∧
        m.2 ≤ (mmStep (fun a b => decide (a < b)) m v).2 ∧
        mmStep (fun a b => decide (a < b)) m v = mmBoth m v)) ∧
    (∀ (vs : List Nat) (x : Nat),
      (vs.foldl (mmStep fun a b => decide (a < b)) (x, x)).1 ≤
          (vs.foldl (mmStep fun a b => decide (a < b)) (x, x)).2 ∧
        vs.foldl (mmStep fun a b => decide (a < b)) (x, x) =
          vs.foldl mmBoth (x, x)) ∧
    (hist_uint8 px8 rows cols hist0).mn ≤
      (hist_uint8 px8 rows cols hist0).mx ∧
    (hist_uint16 px16 rows cols hist0 shift).mn ≤
      (hist_uint16 px16 rows cols hist0 shift).mx ∧
    (masked_ranged_hist_uint16 pxm rows starts ends hist0 n_bins hist_min
        hist_max).mn ≤
      (masked_ranged_hist_uint16 pxm rows starts ends hist0 n_bins hist_min
        hist_max).mx := by
  refine ⟨?_, ?_, ?_, ?_, ?_⟩
  · intro m v h
    exact ⟨(mmStep_grow m v h).1, (mmStep_grow m v h).2.1,
      (mmStep_grow m v h).2.2.1, mmStep_eq_mmBoth m v h⟩
  · intro vs x
    exact ⟨(mm_foldl_spec vs (x, x) (le_refl _)).1,
      foldl_mmStep_eq_mmBoth vs (x, x) (le_refl _)⟩
  · unfold hist_uint8
    rw [foldl_combStep_mn, foldl_combStep_mx]
    exact (mm_foldl_spec _ _ (le_refl _)).1
  · unfold hist_uint16
    rw [foldl_combStep_mn, foldl_combStep_mx]
    exact (mm_foldl_spec _ _ (le_refl _)).1
  · unfold masked_ranged_hist_uint16
    rw [foldl_combStep_mn, foldl_combStep_mx]
    exact (mm_foldl_spec _ _ (le_refl _)).1

theorem C10_minmax_invariant_witness :
    (hist_uint8 (fun _ _ => 7) 1 1 fun _ => 0).mn ≤
      (hist_uint8 (fun _ _ => 7) 1 1 fun _ => 0).mx :=
  (C10_minmax_invariant (fun _ _ => 7) (fun _ _ => 7) (fun _ _ => 7) 1 1
    (fun _ => 0) (fun _ => 1) (fun _ => 0) 0 1 0 5).2.2.1

/-- C3: the claim states that on the ranged path the incremented bin has
index `⌊(n_bins / (hist_max - hist_min)) * (v - hist_min)⌋`, in
`[0, n_bins - 1]`, for every supported element kind.  The code computes
this index in single precision and deviates: at `n_bins = 65533`, range
`(0, 65535)`, sample `v = 32768` (strictly inside the half-open range),
`ranged_hist_uint16` computes `bin_factor = fl32(65533 / 65535) =
1 - 2 ^ (-15)` and the product `bin_factor * 32768` is exactly `32767.0`,
so the code increments bin 32767 while the documented formula (the index
of the idealized `rangedUpd`) gives bin 32766.  The spec's exact floor
mapping ("clamped by construction") is the intent; the single-precision
`bin_factor` computation is the slip. -/
theorem C3_float_bin_divergence :
    rangedIdx32_u16 65533 0 65535 32768 = 32767 ∧
    rangedUpd 0 65535 65533 (fun _ => 0) 32768 = bump (fun _ => 0) 32766 ∧
    65533 * (32768 - 0) / (65535 - 0) = 32766 ∧
    ((0 : Nat) ≤ 32768 ∧ (32768 : Nat) < 65535) ∧ (32767 : Nat) ≠ 32766 :=
  ⟨by decide, by rfl, by decide, by decide, by decide⟩

/-- C6: the claim states that with no overflow bins the bin-count sum
equals the active sample count iff every active sample lies in
`[hist_min, hist_max]`.  The code's single-precision index can equal
`n_bins` itself, an out-of-bounds store: with `hist_min = -1000.0f`,
`hist_max = 1.0f`, `n_bins = 3` and the sample `val = 1 - 2 ^ (-24)` (the
binary32 predecessor of `1.0f`, strictly inside the range),
`ranged_hist_float` computes `fl32(val - hist_min) = 1001.0 =
fl32(hist_max - hist_min)`, and the resulting index is `3 = n_bins` — one
past the last bin, so the increment escapes `histogram[0 .. n_bins)` and
the bin sum falls short of the active count although every sample is in
range.  The idealized `rangedUpdQ` instead bins this sample in-bounds at
index 2, as the spec's "clamped by construction" intends; the
single-precision computation is the slip (an out-of-bounds write). -/
theorem C6_float_oob_divergence :
    rangedIdx32_float 3 1001 1 16793993215 16777216 = 3 ∧
    rangedUpdQ (-1000) 1 3 (fun _ => 0) (1 - 1 / 2 ^ 24) =
      bump (fun _ => 0) 2 ∧
    ((-1000 : ℚ) ≤ 1 - 1 / 2 ^ 24 ∧ (1 - 1 / 2 ^ 24 : ℚ) < 1) := by
  refine ⟨by decide, ?_, by constructor <;> norm_num⟩
  unfold rangedUpdQ
  rw [if_pos ⟨by norm_num, by norm_num⟩]
  refine congrArg (bump fun _ => 0) ?_
  rw [Nat.floor_eq_iff (by positivity)]
  constructor <;> norm_num

end RisWidget
